import Mathlib

/-!
Verification of the batch transcode orchestrator of
`src/av1-converter-v2.5.py` (class `ConversionThread` and the rate-bound
getters of `VideoConverterApp`).

The Python code is shallowly embedded: floats become `ℚ`, Python ints
become `ℤ`, `int(x)` (truncation toward zero) becomes `pyInt`, dicts
become association lists, and exceptions become `Except`.
-/

namespace AV1Conv

/-- Python `int(q)`: truncation toward zero (floor for nonnegative values,
ceiling for negative ones). -/
def pyInt (q : ℚ) : ℤ := if q < 0 then ⌈q⌉ else ⌊q⌋

/-- Embeds `max(0, min(100, x))` as applied to every overall-progress value in
`ConversionThread.run`. -/
def pyClamp (x : ℤ) : ℤ := max 0 (min 100 x)

/-! ## Global bounds for rate control (module constants, lines 46-51) -/

def BITRATE_MIN_KBPS : ℤ := 50
def BITRATE_MAX_KBPS : ℤ := 200000
def CRF_MIN : ℤ := 0
def CRF_MAX_HEVC : ℤ := 51
def CRF_MAX_AV1 : ℤ := 63

/-! ## VideoConverterApp rate getters (lines 796-843)

`get_bitrate` / `get_quality_value` parse the text field to an integer
(non-integer text is rejected with a warning dialog and yields `None`;
the claims below concern integer input, embedded directly as `v : ℤ`).
The clamped value is written back into the text field (`setText`) exactly
when clamping changed it; we record that write-back in `surfaced`. -/

def bitrate_bounds : ℤ × ℤ := (BITRATE_MIN_KBPS, BITRATE_MAX_KBPS)

/-- Embeds `quality_bounds`: HEVC uses 0-51, AV1 0-63; `codec_av1` is whether the
AV1 radio button is checked. -/
def quality_bounds (codec_av1 : Bool) : ℤ × ℤ :=
  (CRF_MIN, if codec_av1 then CRF_MAX_AV1 else CRF_MAX_HEVC)

/-- Embeds `VideoConverterApp._clamp`. -/
def _clamp (v lo hi : ℤ) : ℤ := max lo (min hi v)

/-- Result of a clamping getter: the returned value plus the value written
back to the UI field when the clamp changed it. -/
structure ClampResult where
  value : ℤ
  surfaced : Option ℤ
  deriving DecidableEq, Repr

/-- Embeds `VideoConverterApp.get_bitrate` on integer input. -/
def get_bitrate (v : ℤ) : ClampResult :=
  let lo := bitrate_bounds.1
  let hi := bitrate_bounds.2
  let v_clamped := _clamp v lo hi
  { value := v_clamped
    surfaced := if v ≠ v_clamped then some v_clamped else none }

/-- Embeds `VideoConverterApp.get_quality_value` on integer input. -/
def get_quality_value (codec_av1 : Bool) (v : ℤ) : ClampResult :=
  let lo := (quality_bounds codec_av1).1
  let hi := (quality_bounds codec_av1).2
  let v_clamped := _clamp v lo hi
  { value := v_clamped
    surfaced := if v ≠ v_clamped then some v_clamped else none }

/-! ## ConversionThread.map_preset (lines 169-202) -/

def nvenc_map : List (String × String) :=
  [("ultrafast", "p1"), ("superfast", "p2"), ("veryfast", "p3"),
   ("faster", "p4"), ("fast", "p5"), ("medium", "p6"),
   ("slow", "p7"), ("slower", "p7"), ("veryslow", "p7")]

def svt_map : List (String × String) :=
  [("ultrafast", "13"), ("superfast", "12"), ("veryfast", "10"),
   ("faster", "9"), ("fast", "8"), ("medium", "6"),
   ("slow", "4"), ("slower", "3"), ("veryslow", "2")]

/-- Embeds `ConversionThread.map_preset`: dict `.get` with default becomes
`List.lookup` with `getD`. -/
def map_preset (encoder ui_preset : String) : String :=
  if encoder = "hevc_nvenc" ∨ encoder = "av1_nvenc" then
    (nvenc_map.lookup ui_preset).getD "p6"
  else if encoder = "libsvtav1" then
    (svt_map.lookup ui_preset).getD "6"
  else
    ui_preset

/-- The nine documented abstract preset levels, fastest first. -/
def uiPresets : List String :=
  ["ultrafast", "superfast", "veryfast", "faster", "fast",
   "medium", "slow", "slower", "veryslow"]

/-- Numeric value of a digit string, via a fold over its characters. -/
def digitVal (cs : List Char) : ℕ :=
  cs.foldl (fun n c => n * 10 + (c.toNat - 48)) 0

/-- Numeric reading of the libsvtav1 token produced by `map_preset`. -/
def svtTokenVal (p : String) : ℕ := digitVal (map_preset "libsvtav1" p).data

/-! ## ConversionThread.available_encoders / choose_encoder (lines 141-167) -/

/-- The per-line parse of `ffmpeg -encoders` output: lines starting with a
space are split on whitespace and the second field is the encoder name. -/
def parse_encoder_lines (lines : List String) : List String :=
  lines.filterMap fun line =>
    if line.startsWith " " then
      let parts := (line.split Char.isWhitespace).filter (· ≠ "")
      if 2 ≤ parts.length then parts.get? 1 else none
    else none

/-- Embeds `ConversionThread.available_encoders`: `none` models the
`subprocess.check_output` call raising, in which case the encoder list is
empty. -/
def available_encoders (call : Option (List String)) : List String :=
  match call with
  | none => []
  | some lines => parse_encoder_lines lines

/-- Embeds `ConversionThread.choose_encoder` (`codec` is the thread's target codec
family string). -/
def choose_encoder (codec : String) (encoders : List String) : String :=
  if codec = "H.265" then
    if "hevc_nvenc" ∈ encoders then "hevc_nvenc" else "libx265"
  else
    if "av1_nvenc" ∈ encoders then "av1_nvenc"
    else if "libsvtav1" ∈ encoders then "libsvtav1"
    else "libaom-av1"

/-! ## ConversionThread.probe (lines 204-231) -/

/-- The `ProbeInfo` dataclass (lines 59-64). -/
structure ProbeInfo where
  duration : ℚ
  vcodec : Option String
  acodec : Option String
  audio_bitrate_kbps : Option ℚ
  deriving DecidableEq, Repr

/-- One entry of the probed `streams` array.  `bit_rate` distinguishes an
absent field (`none`) from a present but unparsable one (`some none`) and a
field parsing to a number (`some (some q)`). -/
structure RawStream where
  codec_type : Option String
  codec_name : Option String
  bit_rate : Option (Option ℚ)
  deriving DecidableEq, Repr

/-- The structured result of a successful `ffmpeg.probe` call: format-level
duration (already through `float(...  .get('duration', 0.0))`) and the
stream array. -/
structure RawProbe where
  duration : ℚ
  streams : List RawStream
  deriving DecidableEq, Repr

/-- Python truthiness of an optional string (`not vcodec` is true for both
`None` and the empty string). -/
def strTruthy (v : Option String) : Bool :=
  match v with
  | none => false
  | some s => s ≠ ""

/-- The stream loop of `probe`: first video stream's codec name, first
audio stream's codec name and bit rate (kbps). -/
def extract_streams (streams : List RawStream) :
    Option String × Option String × Option ℚ :=
  streams.foldl
    (fun st s =>
      let v := st.1
      let a := st.2.1
      let ab := st.2.2
      let v' := if s.codec_type = some "video" ∧ ¬ strTruthy v then s.codec_name else v
      if s.codec_type = some "audio" ∧ ¬ strTruthy a then
        let ab' := match s.bit_rate with
          | none => ab
          | some none => none
          | some (some q) => some (q / 1000)
        (v', s.codec_name, ab')
      else
        (v', a, ab))
    (none, none, none)

/-- The sentinel returned when probing fails for any reason. -/
def sentinelProbe : ProbeInfo :=
  { duration := 0, vcodec := none, acodec := none, audio_bitrate_kbps := none }

/-- Result of one `probe` call: the info, the updated cache, the warning
messages emitted via `log_message`, and whether the external probing tool
was invoked. -/
structure ProbeOutcome where
  info : ProbeInfo
  cache : List (String × ProbeInfo)
  warnings : List String
  invoked : Bool
  deriving DecidableEq, Repr

/-- Embeds `ConversionThread.probe`.  `call` is the outcome of `ffmpeg.probe(file)`
together with the field extraction inside the `try` block: `.error`
models any exception raised there (missing file, malformed metadata, tool
failure), which the code catches. -/
def probe (cache : List (String × ProbeInfo)) (file : String)
    (call : Except Unit RawProbe) : ProbeOutcome :=
  match cache.lookup file with
  | some pi => { info := pi, cache := cache, warnings := [], invoked := false }
  | none =>
    match call with
    | .ok raw =>
      let e := extract_streams raw.streams
      let pi : ProbeInfo :=
        { duration := raw.duration, vcodec := e.1, acodec := e.2.1,
          audio_bitrate_kbps := e.2.2 }
      { info := pi, cache := (file, pi) :: cache, warnings := [], invoked := true }
    | .error _ =>
      { info := sentinelProbe, cache := (file, sentinelProbe) :: cache,
        warnings := ["ffprobe failed for " ++ file], invoked := true }

/-! ## Command construction inside ConversionThread.run (lines 277-348) -/

/-- The constructor parameters of `ConversionThread` that feed command
construction. -/
structure ThreadConfig where
  codec : String              -- "AV1" or "H.265"
  container : String          -- "MP4" or "MKV"
  rate_mode : String          -- "bitrate" or "quality"
  bitrate_kbps : Option ℤ
  crf_cq_value : Option ℤ
  preset : String
  audio_copy : Bool
  audio_codec : String
  audio_bitrate_kbps : ℤ
  smart_copy_when_same_codec : Bool

/-- Embeds `desired_vcodec = 'av1' if self.codec == 'AV1' else 'hevc'` (line 264). -/
def desired_vcodec (codec : String) : String :=
  if codec = "AV1" then "av1" else "hevc"

/-- The rate-control block (lines 311-329).  `.error` models the
`raise ValueError("Invalid bitrate")`. -/
def rateArgs (cfg : ThreadConfig) (encoder : String) : Except String (List String) :=
  if cfg.rate_mode = "bitrate" then
    match cfg.bitrate_kbps with
    | none => .error "Invalid bitrate"
    | some br =>
      if br ≤ 0 then .error "Invalid bitrate"
      else if encoder = "hevc_nvenc" ∨ encoder = "av1_nvenc" then
        .ok ["-rc:v", "vbr", "-b:v", toString br ++ "k", "-maxrate",
             toString br ++ "k", "-bufsize", toString (br * 2) ++ "k"]
      else
        .ok ["-b:v", toString br ++ "k"]
  else
    let q := match cfg.crf_cq_value with
      | some v => if 0 ≤ v then v else 23
      | none => 23
    if encoder = "hevc_nvenc" ∨ encoder = "av1_nvenc" then
      .ok ["-rc:v", "vbr", "-cq:v", toString q]
    else if encoder = "libsvtav1" then
      .ok ["-crf", toString q, "-b:v", "0"]
    else
      .ok ["-crf", toString q]

/-- The audio block (lines 331-343). -/
def audioArgs (cfg : ThreadConfig) : List String :=
  if cfg.audio_copy then ["-c:a", "copy"]
  else if cfg.audio_codec = "AAC" then
    ["-c:a", "aac", "-b:a", toString cfg.audio_bitrate_kbps ++ "k"]
  else if cfg.audio_codec = "Opus" then
    ["-c:a", "libopus", "-b:a", toString cfg.audio_bitrate_kbps ++ "k"]
  else ["-c:a", "copy"]

/-- Embeds `['-ss', str(start)]` before `-i` when a crop range is set. -/
def cropSS (crop : Option (ℤ × ℤ)) : List String :=
  match crop with
  | some (s, _) => ["-ss", toString s]
  | none => []

/-- Embeds `['-to', str(end)]` after `-i` when a crop range is set. -/
def cropTo (crop : Option (ℤ × ℤ)) : List String :=
  match crop with
  | some (_, e) => ["-to", toString e]
  | none => []

/-- Container-specific flags (lines 296-297). -/
def containerFlags (container : String) : List String :=
  if container.toUpper = "MP4" then ["-movflags", "+faststart"] else []

/-- The part of the command shared by the copy and encode paths:
`ffmpeg -hide_banner -nostats [-ss s] -i file [-to e] -map 0 [movflags]`. -/
def cmdCommon (cfg : ThreadConfig) (file : String) (crop : Option (ℤ × ℤ)) :
    List String :=
  ["ffmpeg", "-hide_banner", "-nostats"] ++ cropSS crop ++ ["-i", file] ++
    cropTo crop ++ ["-map", "0"] ++ containerFlags cfg.container

/-- The full argument list built for one file (lines 264-346).  `in_vcodec`
is the probed video codec already lower-cased (`(pinfo.vcodec or '').lower()`);
`out_path` is the collision-resolved output path. -/
def buildCmd (cfg : ThreadConfig) (encoder mapped_preset file in_vcodec : String)
    (crop : Option (ℤ × ℤ)) (out_path : String) : Except String (List String) :=
  if cfg.smart_copy_when_same_codec = true ∧ in_vcodec = desired_vcodec cfg.codec then
    .ok (cmdCommon cfg file crop ++ ["-c", "copy"] ++
      ["-progress", "pipe:2", out_path])
  else
    (rateArgs cfg encoder).map fun ra =>
      cmdCommon cfg file crop ++ ["-c:v", encoder, "-preset", mapped_preset] ++
        ra ++ audioArgs cfg ++ ["-c:s", "copy"] ++
        ["-progress", "pipe:2", out_path]

/-- The rate/preset tokens that must be absent on the stream-copy path. -/
def rateFlagTokens : List String :=
  ["-preset", "-b:v", "-maxrate", "-bufsize", "-cq:v", "-crf"]

/-! ## The batch progress loop of ConversionThread.run (lines 233-386)

We model a non-cancelled batch run.  Each file in the batch carries:
whether `os.path.exists` holds at its turn in the loop, its probed format
duration, its optional crop range, the per-file percentage stream produced
by `ff.run_command_with_progress()` (already through `float(pct)`), and
whether the per-file `try` block raised an exception (lines 385-386), in
which case `samples` is the stream emitted before the exception. -/

structure RunFile where
  present : Bool
  probeDur : ℚ
  crop : Option (ℤ × ℤ)
  samples : List ℚ
  failed : Bool
  deriving DecidableEq, Repr

/-- Per-file target duration (lines 243-250): `max(0, e - s)` with a crop
range, otherwise `int(p.duration or 0)`. -/
def targetDur (f : RunFile) : ℤ :=
  match f.crop with
  | some (s, e) => max 0 (e - s)
  | none => pyInt f.probeDur

/-- Sum of all per-file target durations. -/
def sumDurs (files : List RunFile) : ℤ :=
  (files.map targetDur).sum

/-- Embeds `total_duration = sum(durations) or 1` (line 251). -/
def totalDuration (files : List RunFile) : ℤ :=
  if sumDurs files = 0 then 1 else sumDurs files

/-- Embeds `max(0, min(100, int(num / total_duration * 100.0)))`: the shape of
every overall-progress value the loop emits. -/
def scaled (num : ℚ) (total : ℤ) : ℤ :=
  pyClamp (pyInt (num / (total : ℚ) * 100))

/-- The overall value computed for one per-file sample `pct` (line 370):
`(done_duration + (pct/100) * target_dur) / total_duration * 100`, then
`int` and clamp. -/
def overallOf (done : ℚ) (dur total : ℤ) (pct : ℚ) : ℤ :=
  scaled (done + pct / 100 * (dur : ℚ)) total

/-- Embeds the `last_pct` dedup filter (lines 368-375): emit a value only when it
differs from the previously emitted one. -/
def dedupEmit : ℤ → List ℤ → List ℤ
  | _, [] => []
  | last, v :: vs => if v = last then dedupEmit last vs else v :: dedupEmit v vs

/-- The overall-progress values emitted while one file's samples stream in:
`last_pct` starts at -1 for each file. -/
def sampleEmits (done : ℚ) (dur total : ℤ) (samples : List ℚ) : List ℤ :=
  dedupEmit (-1) (samples.map (overallOf done dur total))

/-- The per-file loop of `run` (lines 253-386), accumulating the
`progress_updated` emissions.  A missing file is skipped with a warning and
emits nothing.  A processed file emits its sample values (deduplicated);
when its `try` block raises (lines 385-386) the error is logged and the
loop moves on with `done_duration` unchanged and no completion emission,
otherwise the unconditional completion emission follows after
`done_duration` grew by the file's full target duration. -/
def runLoop (total : ℤ) : List RunFile → ℚ → List ℤ
  | [], _ => []
  | f :: rest, done =>
    if f.present then
      if f.failed then
        sampleEmits done (targetDur f) total f.samples ++ runLoop total rest done
      else
        sampleEmits done (targetDur f) total f.samples ++
          scaled (done + (targetDur f : ℚ)) total ::
            runLoop total rest (done + (targetDur f : ℚ))
    else
      runLoop total rest done

/-- All `progress_updated` values emitted by a non-cancelled batch run. -/
def runEmits (files : List RunFile) : List ℤ :=
  runLoop (totalDuration files) files 0

/-- Sum of the target durations of the files the loop actually processes
(the present ones); `done_duration` never exceeds it. -/
def presentSum (files : List RunFile) : ℤ :=
  (files.filter (·.present)).foldr (fun f acc => targetDur f + acc) 0

/-- Hypotheses on one file of a batch under which the emitted sequence is
monotone: the probed duration is nonnegative (spec data model: duration ≥ 0)
and the per-file percentage stream, derived from ffmpeg's non-decreasing
frame counter, is a non-decreasing sequence of values in [0, 100]. -/
def GoodFile (f : RunFile) : Prop :=
  0 ≤ f.probeDur ∧ f.samples.Pairwise (· ≤ ·) ∧
    ∀ p ∈ f.samples, 0 ≤ p ∧ p ≤ 100

instance (f : RunFile) : Decidable (GoodFile f) := by
  unfold GoodFile; infer_instance

/-- Concrete configuration used by witnesses: AV1 target, MP4 container,
bitrate mode at 6000 kbps, smart copy enabled. -/
def sampleConfig : ThreadConfig :=
  { codec := "AV1", container := "MP4", rate_mode := "bitrate",
    bitrate_kbps := some 6000, crf_cq_value := none, preset := "medium",
    audio_copy := true, audio_codec := "AAC", audio_bitrate_kbps := 192,
    smart_copy_when_same_codec := true }

/-! ## Theorems -/

theorem intStr_append_k_ne (b : ℤ) (t : String)
    (ht : t.data.getLast? ≠ some 'k') : toString b ++ "k" ≠ t := by
  intro h
  apply ht
  rw [← h]
  show ((toString b) ++ "k").data.getLast? = some 'k'
  rw [String.data_append, (rfl : ("k" : String).data = ['k'])]
  exact List.getLast?_concat _

theorem containerFlags_cases {t c : String} (h : t ∈ containerFlags c) :
    t = "-movflags" ∨ t = "+faststart" := by
  unfold containerFlags at h
  split at h <;> simp_all

theorem lookup_eq_none_of_ne (p : String) :
    ∀ l : List (String × String), (∀ kv ∈ l, p ≠ kv.1) → l.lookup p = none
  | [], _ => rfl
  | (k, v) :: es, h => by
    have hk : (p == k) = false :=
      beq_eq_false_iff_ne.mpr (h (k, v) (List.mem_cons_self _ _))
    simp only [List.lookup, hk]
    exact lookup_eq_none_of_ne p es fun kv hkv => h kv (List.mem_cons_of_mem _ hkv)

/-- C4: rate parameters are clamped, never rejected, and the clamped value is
what is applied: quality 100 for HEVC resolves to 51, bitrate 10 resolves to
50, every resolved value lies within the respective bounds, and whenever
clamping changed the value the clamped value is surfaced back to the caller
(written into the UI field). -/
theorem c4_rate_params_clamped :
    (get_quality_value false 100).value = 51 ∧
    (get_bitrate 10).value = 50 ∧
    (∀ v : ℤ, BITRATE_MIN_KBPS ≤ (get_bitrate v).value ∧
      (get_bitrate v).value ≤ BITRATE_MAX_KBPS) ∧
    (∀ (c : Bool) (v : ℤ), (quality_bounds c).1 ≤ (get_quality_value c v).value ∧
      (get_quality_value c v).value ≤ (quality_bounds c).2) ∧
    (∀ v : ℤ, (get_bitrate v).value ≠ v →
      (get_bitrate v).surfaced = some (get_bitrate v).value) ∧
    (∀ (c : Bool) (v : ℤ), (get_quality_value c v).value ≠ v →
      (get_quality_value c v).surfaced = some (get_quality_value c v).value) := by
  refine ⟨by decide, by decide, fun v => ?_, fun c v => ?_, fun v h => ?_,
    fun c v h => ?_⟩
  · simp only [get_bitrate, _clamp, bitrate_bounds, BITRATE_MIN_KBPS,
      BITRATE_MAX_KBPS]
    omega
  · cases c <;>
      simp only [get_quality_value, _clamp, quality_bounds, CRF_MIN, CRF_MAX_AV1,
        CRF_MAX_HEVC, if_true, if_false, Bool.false_eq_true] <;>
      constructor <;> omega
  · simp only [get_bitrate] at h ⊢
    exact if_pos (Ne.symm h)
  · simp only [get_quality_value] at h ⊢
    exact if_pos (Ne.symm h)

/-- Witness for C4: applies the clamping theorem at bitrate 10 and quality 100. -/
theorem c4_rate_params_clamped_witness :
    (get_bitrate 10).surfaced = some (get_bitrate 10).value ∧
    (get_quality_value false 100).surfaced =
      some (get_quality_value false 100).value :=
  ⟨c4_rate_params_clamped.2.2.2.2.1 10 (by decide),
   c4_rate_params_clamped.2.2.2.2.2 false 100 (by decide)⟩

/-- C6 counterexample: for the pass-through encoder libx265 an abstract preset
outside the nine documented levels is returned unchanged, not mapped to the
token that the documented medium level maps to. -/
theorem c6_unknown_preset_counterexample :
    map_preset "libx265" "turbo" = "turbo" ∧
    map_preset "libx265" "turbo" ≠ map_preset "libx265" "medium" := by
  constructor <;> decide

/-- C6 amended: for the table-backed encoders (hevc_nvenc, av1_nvenc,
libsvtav1) an unknown abstract preset maps to that encoder's medium token,
and for every other encoder the preset string is passed through unchanged;
`map_preset` is total, so it never raises an error. -/
theorem c6_unknown_preset_amended (p : String) (hp : p ∉ uiPresets) :
    map_preset "hevc_nvenc" p = map_preset "hevc_nvenc" "medium" ∧
    map_preset "av1_nvenc" p = map_preset "av1_nvenc" "medium" ∧
    map_preset "libsvtav1" p = map_preset "libsvtav1" "medium" ∧
    ∀ enc, enc ≠ "hevc_nvenc" → enc ≠ "av1_nvenc" → enc ≠ "libsvtav1" →
      map_preset enc p = p := by
  simp only [uiPresets, List.mem_cons, List.not_mem_nil, or_false, not_or] at hp
  obtain ⟨h1, h2, h3, h4, h5, h6, h7, h8, h9⟩ := hp
  have hnv : nvenc_map.lookup p = none := by
    apply lookup_eq_none_of_ne
    intro kv hkv
    simp only [nvenc_map, List.mem_cons, List.not_mem_nil, or_false] at hkv
    rcases hkv with rfl | rfl | rfl | rfl | rfl | rfl | rfl | rfl | rfl <;>
      assumption
  have hsv : svt_map.lookup p = none := by
    apply lookup_eq_none_of_ne
    intro kv hkv
    simp only [svt_map, List.mem_cons, List.not_mem_nil, or_false] at hkv
    rcases hkv with rfl | rfl | rfl | rfl | rfl | rfl | rfl | rfl | rfl <;>
      assumption
  refine ⟨?_, ?_, ?_, fun enc he1 he2 he3 => ?_⟩
  · rw [(by decide : map_preset "hevc_nvenc" "medium" = "p6")]
    simp [map_preset, hnv]
  · rw [(by decide : map_preset "av1_nvenc" "medium" = "p6")]
    simp [map_preset, hnv]
  · rw [(by decide : map_preset "libsvtav1" "medium" = "6")]
    simp [map_preset, hsv]
  · simp [map_preset, he1, he2, he3]

/-- Witness for C6 amended at the unknown preset string zzz. -/
theorem c6_unknown_preset_amended_witness :
    map_preset "hevc_nvenc" "zzz" = map_preset "hevc_nvenc" "medium" ∧
    map_preset "libaom-av1" "zzz" = "zzz" :=
  ⟨(c6_unknown_preset_amended "zzz" (by decide)).1,
   (c6_unknown_preset_amended "zzz" (by decide)).2.2.2 "libaom-av1"
     (by decide) (by decide) (by decide)⟩

/-- C7: for the software-AV1 encoder libsvtav1, `map_preset` maps the nine
ordered abstract levels onto a numeric scale monotonically: a faster abstract
preset (earlier in the documented order) yields a strictly greater numeric
token, lower numbers meaning slower/higher quality. -/
theorem c7_svt_preset_monotone :
    ∀ i j : Fin uiPresets.length, i < j →
      svtTokenVal (uiPresets.get j) < svtTokenVal (uiPresets.get i) := by
  decide

/-- Witness for C7 at the extreme pair (ultrafast, veryslow). -/
theorem c7_svt_preset_monotone_witness :
    svtTokenVal (uiPresets.get ⟨8, by decide⟩) <
      svtTokenVal (uiPresets.get ⟨0, by decide⟩) :=
  c7_svt_preset_monotone ⟨0, by decide⟩ ⟨8, by decide⟩ (by decide)

/-- C8: `choose_encoder` prefers av1_nvenc, then libsvtav1, then libaom-av1
for the AV1 family, prefers hevc_nvenc and falls back to libx265 for the
H.265 family, and when encoder enumeration fails the available set is empty
so the final fallback is chosen; selection always produces an encoder. -/
theorem c8_choose_encoder_policy :
    (∀ l, "av1_nvenc" ∈ l → choose_encoder "AV1" l = "av1_nvenc") ∧
    (∀ l, "av1_nvenc" ∉ l → "libsvtav1" ∈ l →
      choose_encoder "AV1" l = "libsvtav1") ∧
    (∀ l, "av1_nvenc" ∉ l → "libsvtav1" ∉ l →
      choose_encoder "AV1" l = "libaom-av1") ∧
    (∀ l, "hevc_nvenc" ∈ l → choose_encoder "H.265" l = "hevc_nvenc") ∧
    (∀ l, "hevc_nvenc" ∉ l → choose_encoder "H.265" l = "libx265") ∧
    choose_encoder "AV1" (available_encoders none) = "libaom-av1" ∧
    choose_encoder "H.265" (available_encoders none) = "libx265" := by
  refine ⟨fun l h => ?_, fun l h1 h2 => ?_, fun l h1 h2 => ?_, fun l h => ?_,
    fun l h => ?_, by decide, by decide⟩ <;>
    simp [choose_encoder, *]

/-- Witness for C8: hardware encoder absent, preferred software encoder
present. -/
theorem c8_choose_encoder_policy_witness :
    choose_encoder "AV1" ["libsvtav1", "libaom-av1"] = "libsvtav1" :=
  c8_choose_encoder_policy.2.1 ["libsvtav1", "libaom-av1"] (by decide)
    (by decide)

/-- C5: in bitrate mode, every hardware (NVENC) encoder gets a
variable-bitrate rate control with the target bitrate (the UI-clamped kbps
value passed into the thread), a max-rate equal to the target, and a buffer
size of twice the target; every software encoder gets only a plain target
bitrate with no max-rate or buffer-size flags. -/
theorem c5_bitrate_mode_flags (cfg : ThreadConfig) (b : ℤ)
    (hmode : cfg.rate_mode = "bitrate") (hb : cfg.bitrate_kbps = some b)
    (hpos : 0 < b) :
    (∀ enc, enc = "hevc_nvenc" ∨ enc = "av1_nvenc" →
      rateArgs cfg enc = .ok ["-rc:v", "vbr", "-b:v", toString b ++ "k",
        "-maxrate", toString b ++ "k", "-bufsize", toString (b * 2) ++ "k"]) ∧
    (∀ enc, enc ≠ "hevc_nvenc" → enc ≠ "av1_nvenc" →
      rateArgs cfg enc = .ok ["-b:v", toString b ++ "k"] ∧
      "-maxrate" ∉ (["-b:v", toString b ++ "k"] : List String) ∧
      "-bufsize" ∉ (["-b:v", toString b ++ "k"] : List String)) := by
  have hble : ¬ b ≤ 0 := by omega
  constructor
  · intro enc henc
    simp [rateArgs, hmode, hb, hble, henc]
  · intro enc h1 h2
    refine ⟨by simp [rateArgs, hmode, hb, hble, h1, h2], ?_, ?_⟩
    · simp only [List.mem_cons, List.not_mem_nil, or_false, not_or]
      exact ⟨by decide, Ne.symm (intStr_append_k_ne b _ (by decide))⟩
    · simp only [List.mem_cons, List.not_mem_nil, or_false, not_or]
      exact ⟨by decide, Ne.symm (intStr_append_k_ne b _ (by decide))⟩

/-- Witness for C5: the sample configuration at 6000 kbps, hardware and
software encoders. -/
theorem c5_bitrate_mode_flags_witness :
    rateArgs sampleConfig "hevc_nvenc" = .ok ["-rc:v", "vbr", "-b:v",
      toString (6000 : ℤ) ++ "k", "-maxrate", toString (6000 : ℤ) ++ "k",
      "-bufsize", toString (6000 * 2 : ℤ) ++ "k"] ∧
    rateArgs sampleConfig "libx265" = .ok ["-b:v", toString (6000 : ℤ) ++ "k"] :=
  ⟨(c5_bitrate_mode_flags sampleConfig 6000 rfl rfl (by decide)).1 "hevc_nvenc"
      (Or.inl rfl),
   ((c5_bitrate_mode_flags sampleConfig 6000 rfl rfl (by decide)).2 "libx265"
      (by decide) (by decide)).1⟩

/-- C9: a failed probe yields the zero-duration sentinel with all
codec/bitrate fields absent and emits a warning, without propagating any
exception (the embedded `probe` is total); and once a probe result has been
produced for a path, every subsequent probe of that path returns the same
cached `ProbeInfo` without re-invoking the external tool. -/
theorem c9_probe_contract :
    (∀ cache file call, cache.lookup file = none → call = .error () →
      (probe cache file call).info.duration = 0 ∧
      (probe cache file call).info.vcodec = none ∧
      (probe cache file call).info.acodec = none ∧
      (probe cache file call).info.audio_bitrate_kbps = none ∧
      (probe cache file call).warnings ≠ []) ∧
    (∀ cache file call call',
      probe (probe cache file call).cache file call' =
        { info := (probe cache file call).info,
          cache := (probe cache file call).cache,
          warnings := [], invoked := false }) := by
  constructor
  · intro cache file call hnone herr
    subst herr
    simp [probe, hnone, sentinelProbe]
  · intro cache file call call'
    cases h : cache.lookup file with
    | some pi => simp [probe, h]
    | none =>
      cases call with
      | ok raw => simp [probe, h, List.lookup]
      | error e => simp [probe, h, List.lookup]

/-- Witness for C9: failing probe on an empty cache. -/
theorem c9_probe_contract_witness :
    (probe [] "clip.mp4" (.error ())).info.duration = 0 ∧
    (probe [] "clip.mp4" (.error ())).info.vcodec = none ∧
    (probe [] "clip.mp4" (.error ())).info.acodec = none ∧
    (probe [] "clip.mp4" (.error ())).info.audio_bitrate_kbps = none ∧
    (probe [] "clip.mp4" (.error ())).warnings ≠ [] :=
  c9_probe_contract.1 [] "clip.mp4" (.error ()) rfl rfl

/-- C3: with smart copy enabled and the probed source codec equal to the
desired target codec family, the built command contains the pure stream-copy
directive -c copy and none of the preset or rate-control flags, regardless
of the crop range.  The path-shaped side conditions state only that the
input path, output path and crop timestamps are not themselves spelled like
one of those flags. -/
theorem c3_smart_copy_stream_copy (cfg : ThreadConfig)
    (encoder mapped_preset file in_vcodec out_path : String)
    (crop : Option (ℤ × ℤ))
    (hsc : cfg.smart_copy_when_same_codec = true)
    (heq : in_vcodec = desired_vcodec cfg.codec)
    (hfile : ∀ t ∈ rateFlagTokens, file ≠ t)
    (hout : ∀ t ∈ rateFlagTokens, out_path ≠ t)
    (hcrop : ∀ s e, crop = some (s, e) →
      ∀ t ∈ rateFlagTokens, toString s ≠ t ∧ toString e ≠ t) :
    ∃ cmd, buildCmd cfg encoder mapped_preset file in_vcodec crop out_path =
        .ok cmd ∧
      List.IsInfix ["-c", "copy"] cmd ∧ ∀ t ∈ rateFlagTokens, t ∉ cmd := by
  refine ⟨cmdCommon cfg file crop ++ ["-c", "copy"] ++
    ["-progress", "pipe:2", out_path], ?_, ?_, ?_⟩
  · simp [buildCmd, hsc, heq]
  · exact ⟨cmdCommon cfg file crop, ["-progress", "pipe:2", out_path], by simp⟩
  · intro t ht hmem
    have hf : t ≠ file := Ne.symm (hfile t ht)
    have ho : t ≠ out_path := Ne.symm (hout t ht)
    rcases crop with _ | ⟨s, e⟩
    · simp only [rateFlagTokens, List.mem_cons, List.not_mem_nil, or_false] at ht
      by_cases hcont : cfg.container.toUpper = "MP4" <;>
        rcases ht with rfl | rfl | rfl | rfl | rfl | rfl <;>
          simp [cmdCommon, cropSS, cropTo, containerFlags, hcont, hf, ho] at hmem
    · have hs : t ≠ toString s := Ne.symm ((hcrop s e rfl t ht).1)
      have he : t ≠ toString e := Ne.symm ((hcrop s e rfl t ht).2)
      simp only [rateFlagTokens, List.mem_cons, List.not_mem_nil, or_false] at ht
      by_cases hcont : cfg.container.toUpper = "MP4" <;>
        rcases ht with rfl | rfl | rfl | rfl | rfl | rfl <;>
          simp [cmdCommon, cropSS, cropTo, containerFlags, hcont, hf, ho,
            hs, he] at hmem

/-- Witness for C3: the sample configuration, a cropped AV1-in-AV1 file. -/
theorem c3_smart_copy_stream_copy_witness :
    ∃ cmd, buildCmd sampleConfig "av1_nvenc" "p6" "in.mkv" "av1"
        (some (3, 10)) "out.mp4" = .ok cmd ∧
      List.IsInfix ["-c", "copy"] cmd ∧ ∀ t ∈ rateFlagTokens, t ∉ cmd :=
  c3_smart_copy_stream_copy sampleConfig "av1_nvenc" "p6" "in.mkv" "av1"
    "out.mp4" (some (3, 10)) rfl (by decide) (by decide) (by decide)
    (by intro s e hse; cases hse; decide)

theorem pyInt_mono {a b : ℚ} (h : a ≤ b) : pyInt a ≤ pyInt b := by
  unfold pyInt
  by_cases ha : a < 0 <;> by_cases hb : b < 0 <;> simp only [ha, hb, if_true,
    if_false]
  · exact Int.ceil_le_ceil h
  · refine le_trans (Int.ceil_le.mpr ?_) (Int.floor_nonneg.mpr (not_lt.mp hb))
    exact_mod_cast ha.le
  · exact absurd (h.trans_lt hb) ha
  · exact Int.floor_le_floor h

theorem pyClamp_mono {x y : ℤ} (h : x ≤ y) : pyClamp x ≤ pyClamp y := by
  unfold pyClamp
  omega

theorem pyClamp_nonneg (x : ℤ) : 0 ≤ pyClamp x := le_max_left _ _

theorem pyClamp_le_100 (x : ℤ) : pyClamp x ≤ 100 := by
  unfold pyClamp
  omega

theorem pyClamp_le_99 {x : ℤ} (h : x ≤ 99) : pyClamp x ≤ 99 := by
  unfold pyClamp
  omega

theorem scaled_bounds (num : ℚ) (total : ℤ) :
    0 ≤ scaled num total ∧ scaled num total ≤ 100 := by
  unfold scaled
  exact ⟨pyClamp_nonneg _, pyClamp_le_100 _⟩

theorem scaled_mono {total : ℤ} (htotal : 0 < total) {a b : ℚ} (h : a ≤ b) :
    scaled a total ≤ scaled b total := by
  unfold scaled
  apply pyClamp_mono
  apply pyInt_mono
  have ht : (0 : ℚ) < (total : ℚ) := by exact_mod_cast htotal
  exact mul_le_mul_of_nonneg_right ((div_le_div_iff_of_pos_right ht).mpr h) (by norm_num)

theorem scaled_le_99 {total : ℤ} (htotal : 0 < total) {num : ℚ}
    (h : num < (total : ℚ)) : scaled num total ≤ 99 := by
  unfold scaled
  apply pyClamp_le_99
  unfold pyInt
  split_ifs with hneg
  · refine le_trans (Int.ceil_le.mpr ?_) (by norm_num : (0 : ℤ) ≤ 99)
    exact_mod_cast hneg.le
  · have ht : (0 : ℚ) < (total : ℚ) := by exact_mod_cast htotal
    have h1 : num / (total : ℚ) * 100 < 100 := by
      have h2 : num / (total : ℚ) < 1 := (div_lt_one ht).mpr h
      nlinarith
    have h3 : ⌊num / (total : ℚ) * 100⌋ < 100 := by
      rw [Int.floor_lt]
      exact_mod_cast h1
    omega

theorem targetDur_nonneg {f : RunFile} (h : 0 ≤ f.probeDur) : 0 ≤ targetDur f := by
  rcases hc : f.crop with _ | ⟨s, e⟩
  · have he : targetDur f = pyInt f.probeDur := by
      unfold targetDur
      rw [hc]
    rw [he]
    unfold pyInt
    rw [if_neg (not_lt.mpr h)]
    exact Int.floor_nonneg.mpr h
  · have he : targetDur f = max 0 (e - s) := by
      unfold targetDur
      rw [hc]
    rw [he]
    exact le_max_left _ _

theorem sumDurs_cons (f : RunFile) (rest : List RunFile) :
    sumDurs (f :: rest) = targetDur f + sumDurs rest := by
  simp [sumDurs]

theorem sumDurs_nonneg : ∀ {files : List RunFile},
    (∀ f ∈ files, 0 ≤ f.probeDur) → 0 ≤ sumDurs files
  | [], _ => le_refl 0
  | f :: rest, h => by
    have h1 := targetDur_nonneg (h f (List.mem_cons_self _ _))
    have h2 := sumDurs_nonneg fun g hg => h g (List.mem_cons_of_mem _ hg)
    rw [sumDurs_cons]
    omega

theorem presentSum_cons (f : RunFile) (rest : List RunFile) :
    presentSum (f :: rest) =
      if f.present then targetDur f + presentSum rest else presentSum rest := by
  unfold presentSum
  by_cases hp : f.present <;> simp [List.filter_cons, hp]

theorem presentSum_nonneg : ∀ {files : List RunFile},
    (∀ f ∈ files, 0 ≤ f.probeDur) → 0 ≤ presentSum files
  | [], _ => le_refl 0
  | f :: rest, h => by
    have h1 := targetDur_nonneg (h f (List.mem_cons_self _ _))
    have h2 := presentSum_nonneg fun g hg => h g (List.mem_cons_of_mem _ hg)
    rw [presentSum_cons]
    by_cases hp : f.present <;> simp [hp] <;> omega

theorem presentSum_le_sumDurs : ∀ {files : List RunFile},
    (∀ f ∈ files, 0 ≤ f.probeDur) → presentSum files ≤ sumDurs files
  | [], _ => le_refl 0
  | f :: rest, h => by
    have h1 := targetDur_nonneg (h f (List.mem_cons_self _ _))
    have h2 := presentSum_le_sumDurs fun g hg => h g (List.mem_cons_of_mem _ hg)
    rw [presentSum_cons, sumDurs_cons]
    by_cases hp : f.present <;> simp [hp] <;> omega

theorem presentSum_add_missing_le : ∀ {files : List RunFile} (g : RunFile),
    g ∈ files → g.present = false → (∀ f ∈ files, 0 ≤ f.probeDur) →
    presentSum files + targetDur g ≤ sumDurs files
  | [], g, hg, _, _ => absurd hg (List.not_mem_nil _)
  | f :: rest, g, hg, hgp, hd => by
    have hdf := targetDur_nonneg (hd f (List.mem_cons_self _ _))
    have hdr : ∀ x ∈ rest, 0 ≤ x.probeDur :=
      fun x hx => hd x (List.mem_cons_of_mem _ hx)
    rw [presentSum_cons, sumDurs_cons]
    rcases List.mem_cons.mp hg with rfl | hgr
    · rw [if_neg (by simp [hgp])]
      have h2 := presentSum_le_sumDurs hdr
      omega
    · have h2 := presentSum_add_missing_le g hgr hgp hdr
      by_cases hp : f.present <;> simp [hp] <;> omega

theorem dedupEmit_mem : ∀ {last : ℤ} {vs : List ℤ} {v : ℤ},
    v ∈ dedupEmit last vs → v ∈ vs
  | _, [], v, h => absurd h (List.not_mem_nil _)
  | last, w :: vs, v, h => by
    by_cases hw : w = last
    · simp only [dedupEmit, if_pos hw] at h
      exact List.mem_cons_of_mem _ (dedupEmit_mem h)
    · simp only [dedupEmit, if_neg hw] at h
      rcases List.mem_cons.mp h with rfl | h2
      · exact List.mem_cons_self _ _
      · exact List.mem_cons_of_mem _ (dedupEmit_mem h2)

theorem dedup_chain {m : ℤ} {rest : List ℤ} (hrest : List.Chain (· ≤ ·) m rest) :
    ∀ (vs : List ℤ) (last c : ℤ), vs.Pairwise (· ≤ ·) →
      (∀ v ∈ vs, c ≤ v ∧ v ≤ m) → c ≤ m →
      List.Chain (· ≤ ·) c (dedupEmit last vs ++ m :: rest)
  | [], last, c, _, _, hcm => by
    simpa [dedupEmit] using List.Chain.cons hcm hrest
  | v :: vs, last, c, hpw, hb, hcm => by
    rcases List.pairwise_cons.mp hpw with ⟨hv, hpw2⟩
    by_cases hveq : v = last
    · simp only [dedupEmit, if_pos hveq]
      exact dedup_chain hrest vs last c hpw2
        (fun w hw => hb w (List.mem_cons_of_mem _ hw)) hcm
    · simp only [dedupEmit, if_neg hveq, List.cons_append]
      exact List.Chain.cons (hb v (List.mem_cons_self _ _)).1
        (dedup_chain hrest vs v v hpw2
          (fun w hw => ⟨hv w hw, (hb w (List.mem_cons_of_mem _ hw)).2⟩)
          (hb v (List.mem_cons_self _ _)).2)

theorem chain'_of_chain {c : ℤ} {l : List ℤ}
    (h : List.Chain (· ≤ ·) c l) : List.Chain' (· ≤ ·) l := by
  cases h with
  | nil => exact List.chain'_nil
  | cons hab hch => exact hch

theorem overallOf_mono {total : ℤ} (htotal : 0 < total) {done : ℚ} {dur : ℤ}
    (hdur : (0 : ℚ) ≤ (dur : ℚ)) {p q : ℚ} (hpq : p ≤ q) :
    overallOf done dur total p ≤ overallOf done dur total q := by
  unfold overallOf
  apply scaled_mono htotal
  have h1 : p / 100 ≤ q / 100 :=
    (div_le_div_iff_of_pos_right (by norm_num : (0:ℚ) < 100)).mpr hpq
  nlinarith

theorem runLoop_chain {total : ℤ} (htotal : 0 < total) :
    ∀ (files : List RunFile) (done : ℚ), (∀ f ∈ files, f.failed = false) →
      (∀ f ∈ files, GoodFile f) →
      List.Chain (· ≤ ·) (scaled done total) (runLoop total files done)
  | [], _, _, _ => List.Chain.nil
  | f :: rest, done, hcl, hg => by
    obtain ⟨hdur, hpw, hbnd⟩ := hg f (List.mem_cons_self _ _)
    have hgr : ∀ g ∈ rest, GoodFile g :=
      fun g hgm => hg g (List.mem_cons_of_mem _ hgm)
    have hclr : ∀ g ∈ rest, g.failed = false :=
      fun g hgm => hcl g (List.mem_cons_of_mem _ hgm)
    have hcf : ¬ f.failed = true := by
      rw [hcl f (List.mem_cons_self _ _)]
      exact Bool.false_ne_true
    by_cases hp : f.present
    · simp only [runLoop, if_pos hp, if_neg hcf, sampleEmits]
      have htd : (0 : ℚ) ≤ ((targetDur f : ℤ) : ℚ) := by
        exact_mod_cast targetDur_nonneg hdur
      apply dedup_chain
        (runLoop_chain htotal rest (done + ((targetDur f : ℤ) : ℚ)) hclr hgr)
      · exact List.pairwise_map.mpr (hpw.imp fun hpq => overallOf_mono htotal htd hpq)
      · intro v hv
        rcases List.mem_map.mp hv with ⟨p, hpm, rfl⟩
        obtain ⟨hp0, hp100⟩ := hbnd p hpm
        have hterm0 : (0 : ℚ) ≤ p / 100 * ((targetDur f : ℤ) : ℚ) :=
          mul_nonneg (div_nonneg hp0 (by norm_num)) htd
        have hterm1 : p / 100 * ((targetDur f : ℤ) : ℚ) ≤ ((targetDur f : ℤ) : ℚ) := by
          have h1 : p / 100 ≤ 1 := (div_le_one (by norm_num)).mpr hp100
          nlinarith
        unfold overallOf
        exact ⟨scaled_mono htotal (by linarith), scaled_mono htotal (by linarith)⟩
      · exact scaled_mono htotal (by linarith)
    · simp only [runLoop, if_neg hp]
      exact runLoop_chain htotal rest done hclr hgr

theorem runLoop_bounds {total : ℤ} :
    ∀ (files : List RunFile) (done : ℚ) (v : ℤ),
      v ∈ runLoop total files done → 0 ≤ v ∧ v ≤ 100
  | [], _, v, h => absurd h (List.not_mem_nil _)
  | f :: rest, done, v, h => by
    by_cases hp : f.present
    · by_cases hf : f.failed = true
      · simp only [runLoop, if_pos hp, if_pos hf] at h
        rcases List.mem_append.mp h with h1 | h2
        · simp only [sampleEmits] at h1
          rcases List.mem_map.mp (dedupEmit_mem h1) with ⟨p, _, rfl⟩
          unfold overallOf
          exact scaled_bounds _ _
        · exact runLoop_bounds rest done v h2
      · simp only [runLoop, if_pos hp, if_neg hf] at h
        rcases List.mem_append.mp h with h1 | h2
        · simp only [sampleEmits] at h1
          rcases List.mem_map.mp (dedupEmit_mem h1) with ⟨p, _, rfl⟩
          unfold overallOf
          exact scaled_bounds _ _
        · rcases List.mem_cons.mp h2 with rfl | h3
          · exact scaled_bounds _ _
          · exact runLoop_bounds rest _ v h3
    · simp only [runLoop, if_neg hp] at h
      exact runLoop_bounds rest done v h

theorem runLoop_le_99 {total : ℤ} (htotal : 0 < total) :
    ∀ (files : List RunFile) (done : ℚ),
      (∀ f ∈ files, 0 ≤ f.probeDur ∧ ∀ p ∈ f.samples, p ≤ 100) →
      done + ((presentSum files : ℤ) : ℚ) < (total : ℚ) →
      ∀ v ∈ runLoop total files done, v ≤ 99
  | [], _, _, _, v, hv => absurd hv (List.not_mem_nil _)
  | f :: rest, done, h, hlt, v, hv => by
    obtain ⟨hdur, hs100⟩ := h f (List.mem_cons_self _ _)
    have hr : ∀ g ∈ rest, 0 ≤ g.probeDur ∧ ∀ p ∈ g.samples, p ≤ 100 :=
      fun g hgm => h g (List.mem_cons_of_mem _ hgm)
    have htd : (0 : ℚ) ≤ ((targetDur f : ℤ) : ℚ) := by
      exact_mod_cast targetDur_nonneg hdur
    have hpsr : (0 : ℚ) ≤ ((presentSum rest : ℤ) : ℚ) := by
      exact_mod_cast presentSum_nonneg fun g hgm => (hr g hgm).1
    by_cases hp : f.present
    · rw [presentSum_cons, if_pos hp] at hlt
      push_cast at hlt
      by_cases hfl : f.failed = true
      · simp only [runLoop, if_pos hp, if_pos hfl] at hv
        rcases List.mem_append.mp hv with h1 | h2
        · simp only [sampleEmits] at h1
          rcases List.mem_map.mp (dedupEmit_mem h1) with ⟨p, hpm, rfl⟩
          have hple : p / 100 * ((targetDur f : ℤ) : ℚ) ≤ ((targetDur f : ℤ) : ℚ) := by
            have h1 : p / 100 ≤ 1 := (div_le_one (by norm_num)).mpr (hs100 p hpm)
            nlinarith
          unfold overallOf
          apply scaled_le_99 htotal
          linarith
        · refine runLoop_le_99 htotal rest done hr ?_ v h2
          linarith
      · simp only [runLoop, if_pos hp, if_neg hfl] at hv
        rcases List.mem_append.mp hv with h1 | h2
        · simp only [sampleEmits] at h1
          rcases List.mem_map.mp (dedupEmit_mem h1) with ⟨p, hpm, rfl⟩
          have hple : p / 100 * ((targetDur f : ℤ) : ℚ) ≤ ((targetDur f : ℤ) : ℚ) := by
            have h1 : p / 100 ≤ 1 := (div_le_one (by norm_num)).mpr (hs100 p hpm)
            nlinarith
          unfold overallOf
          apply scaled_le_99 htotal
          linarith
        · rcases List.mem_cons.mp h2 with rfl | h3
          · apply scaled_le_99 htotal
            linarith
          · refine runLoop_le_99 htotal rest (done + ((targetDur f : ℤ) : ℚ)) hr ?_ v h3
            linarith
    · rw [presentSum_cons, if_neg (by simp [hp])] at hlt
      simp only [runLoop, if_neg hp] at hv
      exact runLoop_le_99 htotal rest done hr hlt v hv

/-- C1 amended: for every batch run in which no per-file conversion raises
(every processed job completes cleanly — the except branch of lines 385-386
is never taken), whose per-file progress streams are non-decreasing
sequences of values in [0, 100] (ffmpeg's progress derives from a
non-decreasing frame counter) and whose probed durations are nonnegative,
the sequence of overall-progress values emitted via `progress_updated` is
non-decreasing, and every emitted value lies in [0, 100] — the completion
emission, made after `done_duration` grows by the file's full target
duration, keeps the aggregate from regressing even when the last per-file
sample undershot 100%. -/
theorem c1_progress_monotone_bounded (files : List RunFile)
    (hclean : ∀ f ∈ files, f.failed = false)
    (hg : ∀ f ∈ files, GoodFile f) :
    List.Chain' (· ≤ ·) (runEmits files) ∧
      ∀ v ∈ runEmits files, 0 ≤ v ∧ v ≤ 100 := by
  have hd : ∀ f ∈ files, 0 ≤ f.probeDur := fun f hf => (hg f hf).1
  have hsum : 0 ≤ sumDurs files := sumDurs_nonneg hd
  have htotal : 0 < totalDuration files := by
    unfold totalDuration
    split_ifs <;> omega
  exact ⟨chain'_of_chain (runLoop_chain htotal files 0 hclean hg),
    fun v hv => runLoop_bounds files 0 v hv⟩

/-- C1 counterexample: in a run where the first file's conversion raises
after emitting progress (the except branch of lines 385-386),
`done_duration` is not incremented, so the next file's first emission
regresses: two 100-second files where the first fails at 90% emit 45, then
5, then 50 — the emitted sequence is not non-decreasing, refuting the claim
as stated for every batch run. -/
theorem c1_progress_monotone_counterexample :
    runEmits [⟨true, 100, none, [90], true⟩, ⟨true, 100, none, [10], false⟩] =
      [45, 5, 50] ∧
    ¬ List.Chain' (· ≤ ·) ([45, 5, 50] : List ℤ) := by
  constructor
  · norm_num [runEmits, runLoop, sampleEmits, dedupEmit, overallOf, scaled,
      totalDuration, sumDurs, targetDur, pyInt, pyClamp]
  · intro h
    exact absurd (List.chain'_cons.mp h).1 (by decide)

/-- Witness for C1: a two-file batch, both jobs clean, with in-range,
non-decreasing sample streams. -/
theorem c1_progress_monotone_bounded_witness :
    List.Chain' (· ≤ ·) (runEmits
      [⟨true, 100, none, [0, 25, 50, 75, 99], false⟩,
       ⟨true, 50, none, [10, 60, 95], false⟩]) :=
  (c1_progress_monotone_bounded
    [⟨true, 100, none, [0, 25, 50, 75, 99], false⟩,
     ⟨true, 50, none, [10, 60, 95], false⟩]
    (by
      intro f hf
      simp only [List.mem_cons, List.not_mem_nil, or_false] at hf
      rcases hf with rfl | rfl <;> rfl)
    (by
      intro f hf
      simp only [List.mem_cons, List.not_mem_nil, or_false] at hf
      rcases hf with rfl | rfl <;>
        refine ⟨by norm_num, ?_, ?_⟩ <;>
        simp only [List.pairwise_cons, List.mem_cons, List.not_mem_nil,
          or_false, List.Pairwise.nil] <;>
        norm_num)).1

/-- C2 counterexample: the batch of two files with target durations 100 s and
50 s has total duration 150 s, but the overall value emitted upon the first
file's clean completion is 66 (the floor of 10000/150), not 67 as claimed. -/
theorem c2_first_completion_counterexample :
    runEmits [⟨true, 100, none, [], false⟩, ⟨true, 50, none, [], false⟩] =
      [66, 100] ∧
    (66 : ℤ) ≠ 67 := by
  constructor
  · norm_num [runEmits, runLoop, sampleEmits, dedupEmit, overallOf, scaled,
      totalDuration, sumDurs, targetDur, pyInt, pyClamp]
  · decide

/-- C2 amended: for the two-file batch (durations 100 s and 50 s, no crop)
with arbitrary per-file sample streams, the total target duration is 150 s,
the value emitted immediately upon the first file's clean completion —
before any progress event of the second file — is exactly 66 (⌊100·100/150⌋),
and the batch-end emission is 100. -/
theorem c2_first_completion_amended (s1 s2 : List ℚ) :
    runEmits [⟨true, 100, none, s1, false⟩, ⟨true, 50, none, s2, false⟩] =
      sampleEmits 0 100 150 s1 ++
        66 :: (sampleEmits 100 50 150 s2 ++ [100]) := by
  have ht : totalDuration
      [⟨true, 100, none, s1, false⟩, ⟨true, 50, none, s2, false⟩] = 150 := by
    norm_num [totalDuration, sumDurs, targetDur, pyInt]
  have h66 : scaled (0 + ((100 : ℤ) : ℚ)) 150 = 66 := by
    norm_num [scaled, pyInt, pyClamp]
  have h100 : scaled (0 + ((100 : ℤ) : ℚ) + ((50 : ℤ) : ℚ)) 150 = 100 := by
    norm_num [scaled, pyInt, pyClamp]
  have htd1 : targetDur ⟨true, 100, none, s1, false⟩ = 100 := by
    norm_num [targetDur, pyInt]
  have htd2 : targetDur ⟨true, 50, none, s2, false⟩ = 50 := by
    norm_num [targetDur, pyInt]
  simp only [runEmits, ht, runLoop, htd1, htd2, if_pos, h66, h100]
  norm_num

/-- C10: a missing file is skipped with its target duration kept in the
fixed total-duration denominator but never added to the completed-duration
counter, so in a clean batch containing a skipped missing file of positive
target duration every emitted overall value — in particular the final one —
stays strictly below 100. -/
theorem c10_missing_file_caps_progress (files : List RunFile) (g : RunFile)
    (hgm : g ∈ files) (hgp : g.present = false) (hgd : 0 < targetDur g)
    (hd : ∀ f ∈ files, 0 ≤ f.probeDur)
    (hs : ∀ f ∈ files, ∀ p ∈ f.samples, p ≤ 100) :
    ∀ v ∈ runEmits files, v < 100 := by
  have hmix : ∀ f ∈ files, 0 ≤ f.probeDur ∧ ∀ p ∈ f.samples, p ≤ 100 :=
    fun f hf => ⟨hd f hf, hs f hf⟩
  have hkey : presentSum files + targetDur g ≤ sumDurs files :=
    presentSum_add_missing_le g hgm hgp hd
  have hps : 0 ≤ presentSum files := presentSum_nonneg hd
  have htdef : totalDuration files = sumDurs files := by
    unfold totalDuration
    rw [if_neg (by omega)]
  have htotal : 0 < totalDuration files := by omega
  intro v hv
  have hlt : (0 : ℚ) + ((presentSum files : ℤ) : ℚ) <
      ((totalDuration files : ℤ) : ℚ) := by
    rw [htdef]
    have h1 : presentSum files < sumDurs files := by omega
    rw [zero_add]
    exact_mod_cast h1
  have h99 := runLoop_le_99 htotal files 0 hmix hlt v hv
  omega

/-- Witness for C10: one present 10-second file, one missing cropped
5-second file; the only emission is 66 < 100. -/
theorem c10_missing_file_caps_progress_witness :
    66 ∈ runEmits
      [⟨true, 10, none, [], false⟩, ⟨false, 0, some (0, 5), [], false⟩] ∧
    (66 : ℤ) < 100 :=
  ⟨by norm_num [runEmits, runLoop, sampleEmits, dedupEmit, overallOf, scaled,
      totalDuration, sumDurs, targetDur, pyInt, pyClamp],
   c10_missing_file_caps_progress
    [⟨true, 10, none, [], false⟩, ⟨false, 0, some (0, 5), [], false⟩]
    ⟨false, 0, some (0, 5), [], false⟩
    (List.mem_cons_of_mem _ (List.mem_cons_self _ _)) rfl (by decide)
    (by
      intro f hf
      simp only [List.mem_cons, List.not_mem_nil, or_false] at hf
      rcases hf with rfl | rfl <;> norm_num)
    (by
      intro f hf
      simp only [List.mem_cons, List.not_mem_nil, or_false] at hf
      rcases hf with rfl | rfl <;> simp)
    66
    (by norm_num [runEmits, runLoop, sampleEmits, dedupEmit, overallOf, scaled,
      totalDuration, sumDurs, targetDur, pyInt, pyClamp])⟩

end AV1Conv
